import Mathlib

namespace LandingPage

/-!
Verification of the trending-ticker widget (`js/trending-ticker.js`) and of the
visual QC suite (`visual-qc.spec.js`) of the landing-page repository.

JavaScript numbers are modelled as exact rationals.  Where the observable
behaviour of the code depends on binary64 rounding (`formatNumber`), the
binary64 rounding step itself is modelled exactly on rationals.
-/

/-- One fixture record of `data/trending.json`, as consumed by
`js/trending-ticker.js` (fields read by `renderTicker` and the sort). -/
structure TrendingRepo where
  name : String
  url : String
  stars_today : Nat
  language : String
  trending_score : ℚ
  deriving DecidableEq

/-- Stable insertion used to embed `data.sort((a, b) => b.trending_score -
a.trending_score)` (`js/trending-ticker.js` line 47).  The comparator orders by
`trending_score` descending and `Array.prototype.sort` is stable; a stable sort
for a total preorder is unique, so it is embedded as stable insertion sort:
`x` is placed before the first element whose score is at most `x`'s score. -/
def insertByScore (x : TrendingRepo) : List TrendingRepo → List TrendingRepo
  | [] => [x]
  | y :: ys =>
    if y.trending_score ≤ x.trending_score then x :: y :: ys
    else y :: insertByScore x ys

/-- `repos = data.sort((a, b) => b.trending_score - a.trending_score)`
(`js/trending-ticker.js` line 47). -/
def jsSortRepos (l : List TrendingRepo) : List TrendingRepo :=
  l.foldr insertByScore []

lemma mem_insertByScore {a x : TrendingRepo} {l : List TrendingRepo} :
    a ∈ insertByScore x l ↔ a = x ∨ a ∈ l := by
  induction l with
  | nil => simp [insertByScore]
  | cons y ys ih =>
    by_cases h : y.trending_score ≤ x.trending_score
    · rw [insertByScore, if_pos h]
      simp
    · rw [insertByScore, if_neg h]
      simp only [List.mem_cons, ih]
      tauto

lemma perm_insertByScore (x : TrendingRepo) (l : List TrendingRepo) :
    List.Perm (insertByScore x l) (x :: l) := by
  induction l with
  | nil => rfl
  | cons y ys ih =>
    by_cases h : y.trending_score ≤ x.trending_score
    · rw [insertByScore, if_pos h]
    · rw [insertByScore, if_neg h]
      exact (ih.cons y).trans (List.Perm.swap x y ys)

lemma pairwise_insertByScore (x : TrendingRepo) (l : List TrendingRepo)
    (hl : l.Pairwise (fun a b => b.trending_score ≤ a.trending_score)) :
    (insertByScore x l).Pairwise (fun a b => b.trending_score ≤ a.trending_score) := by
  induction l with
  | nil => simp [insertByScore]
  | cons y ys ih =>
    rcases List.pairwise_cons.mp hl with ⟨hy, hys⟩
    by_cases h : y.trending_score ≤ x.trending_score
    · rw [insertByScore, if_pos h]
      refine List.pairwise_cons.mpr ⟨?_, hl⟩
      intro z hz
      rcases List.mem_cons.mp hz with rfl | hz
      · exact h
      · exact (hy z hz).trans h
    · rw [insertByScore, if_neg h]
      refine List.pairwise_cons.mpr ⟨?_, ih hys⟩
      intro z hz
      rcases mem_insertByScore.mp hz with rfl | hz
      · exact le_of_lt (not_le.mp h)
      · exact hy z hz

lemma filter_insertByScore (s : ℚ) (x : TrendingRepo) (l : List TrendingRepo) :
    (insertByScore x l).filter (fun r => decide (r.trending_score = s)) =
      (x :: l).filter (fun r => decide (r.trending_score = s)) := by
  induction l with
  | nil => rfl
  | cons y ys ih =>
    by_cases h : y.trending_score ≤ x.trending_score
    · rw [insertByScore, if_pos h]
    · rw [insertByScore, if_neg h]
      by_cases hx : x.trending_score = s <;> by_cases hy : y.trending_score = s
      · exact absurd (by rw [hx, hy]) h
      · simp [List.filter_cons, hx, hy, ih]
      · simp [List.filter_cons, hx, hy, ih]
      · simp [List.filter_cons, hx, hy, ih]

lemma jsSortRepos_pairwise (l : List TrendingRepo) :
    (jsSortRepos l).Pairwise (fun a b => b.trending_score ≤ a.trending_score) := by
  induction l with
  | nil => exact List.Pairwise.nil
  | cons x xs ih => exact pairwise_insertByScore x _ ih

lemma jsSortRepos_filter (s : ℚ) (l : List TrendingRepo) :
    (jsSortRepos l).filter (fun r => decide (r.trending_score = s)) =
      l.filter (fun r => decide (r.trending_score = s)) := by
  induction l with
  | nil => rfl
  | cons x xs ih =>
    show (insertByScore x (jsSortRepos xs)).filter _ = _
    rw [filter_insertByScore]
    simp only [List.filter_cons, ih]

lemma jsSortRepos_perm (l : List TrendingRepo) : List.Perm (jsSortRepos l) l := by
  induction l with
  | nil => rfl
  | cons x xs ih => exact (perm_insertByScore x (jsSortRepos xs)).trans (ih.cons x)

/-- Claim C7: for every fixture payload, the repos rendered into cards are the
payload sorted by `trending_score` descending (pairwise order of the output),
the output is a permutation of the payload, and any two repos with equal
`trending_score` keep their relative fixture order (the sub-sequence at each
score value is unchanged — stable sort). -/
theorem sort_desc_stable (l : List TrendingRepo) :
    (jsSortRepos l).Pairwise (fun a b => b.trending_score ≤ a.trending_score) ∧
      List.Perm (jsSortRepos l) l ∧
      ∀ s : ℚ, (jsSortRepos l).filter (fun r => decide (r.trending_score = s)) =
        l.filter (fun r => decide (r.trending_score = s)) :=
  ⟨jsSortRepos_pairwise l, jsSortRepos_perm l, fun s => jsSortRepos_filter s l⟩

/-!
## Number formatting (`formatNumber`, `js/trending-ticker.js` lines 142-147)

`formatNumber(num)` returns `(num / 1000).toFixed(1) + 'k'` for `num >= 1000`
and `num.toString()` otherwise.  `num / 1000` is binary64 division: for an
integer `num` below `2 ^ 53` it yields the binary64 value nearest to the exact
rational `num / 1000` (ties to even significand), and `toFixed(1)` (ECMA-262)
picks the integer `n` minimising `|n / 10 - x|`, ties to the larger `n`.  Both
steps are modelled exactly on rationals.
-/

/-- Round a rational to the nearest integer, ties to the even integer (the
binary64 significand rounding rule). -/
def roundHalfEven (q : ℚ) : ℤ :=
  if q - ⌊q⌋ < 1 / 2 then ⌊q⌋
  else if 1 / 2 < q - ⌊q⌋ then ⌊q⌋ + 1
  else if 2 ∣ ⌊q⌋ then ⌊q⌋ else ⌊q⌋ + 1

/-- The binary64 value nearest to `q`, valid for `1 ≤ q < 2 ^ 53` (the range
`formatNumber` uses; no subnormals or overflow arise there): the representable
grid at exponent `e = ⌊logb 2 q⌋` has spacing `2 ^ e / 2 ^ 52`. -/
def jsDouble (q : ℚ) : ℚ :=
  ((roundHalfEven (q * 2 ^ 52 / 2 ^ Nat.log2 (Int.toNat ⌊q⌋)) : ℚ) *
      2 ^ Nat.log2 (Int.toNat ⌊q⌋)) / 2 ^ 52

/-- ECMA-262 `Number.prototype.toFixed` with one fraction digit, applied to the
exact rational value of the binary64 argument (for a nonnegative argument below
`10 ^ 21`): the integer `n` minimising `|n / 10 - x|`, ties to the larger `n`,
printed with one digit after the point. -/
def jsToFixed1 (x : ℚ) : String :=
  toString (⌊x * 10 + 1 / 2⌋ / 10) ++ "." ++ toString (⌊x * 10 + 1 / 2⌋ % 10)

/-- `formatNumber` (`js/trending-ticker.js` lines 142-147). -/
def formatNumber (num : Nat) : String :=
  if num ≥ 1000 then jsToFixed1 (jsDouble ((num : ℚ) / 1000)) ++ "k"
  else toString num

/-- Modelled from the spec's words (spec section 8: "if `n ≥ 1000`, displayed
label equals `(n/1000)` rounded to one decimal place followed by `k`; else the
literal integer"): exact half-up rounding of the rational `num / 1000` to one
decimal place — `⌊num / 100 + 1/2⌋` tenths. -/
def specFormatNumber (num : Nat) : String :=
  if num ≥ 1000 then
    toString (⌊(num : ℚ) / 100 + 1 / 2⌋ / 10) ++ "." ++
      toString (⌊(num : ℚ) / 100 + 1 / 2⌋ % 10) ++ "k"
  else toString num

lemma roundHalfEven_abs (q : ℚ) : |(roundHalfEven q : ℚ) - q| ≤ 1 / 2 := by
  have h0 : (⌊q⌋ : ℚ) ≤ q := Int.floor_le q
  have h1 : q < ⌊q⌋ + 1 := Int.lt_floor_add_one q
  rw [roundHalfEven]
  split_ifs with hlt hgt hev
  · rw [abs_le]
    constructor <;> linarith
  · rw [abs_le]
    push_cast
    constructor <;> linarith
  · have h2 := not_lt.mp hlt
    rw [abs_le]
    constructor <;> linarith
  · have h2 := not_lt.mp hgt
    rw [abs_le]
    push_cast
    constructor <;> linarith

lemma jsDouble_sub_abs (q : ℚ) (hq1 : 1 ≤ q) (hq2 : q ≤ 1000) :
    |jsDouble q - q| ≤ 1 / 2 ^ 44 := by
  unfold jsDouble
  set e : ℕ := Nat.log2 (Int.toNat ⌊q⌋) with he
  have he9 : e ≤ 9 := by
    have hge : 1 ≤ ⌊q⌋ := by
      rw [Int.le_floor]
      exact_mod_cast hq1
    have hle : ⌊q⌋ ≤ 1000 := by
      have h := Int.floor_mono hq2
      simpa using h
    have hne : Int.toNat ⌊q⌋ ≠ 0 := by omega
    have hlt : Int.toNat ⌊q⌋ < 2 ^ 10 := by
      simp only [pow_succ, pow_zero]
      omega
    have := (Nat.log2_lt hne).mpr hlt
    omega
  have key := roundHalfEven_abs (q * 2 ^ 52 / 2 ^ e)
  have h2e : (2 : ℚ) ^ e ≤ 2 ^ 9 := by
    apply pow_le_pow_right₀ (by norm_num) he9
  calc |(roundHalfEven (q * 2 ^ 52 / 2 ^ e) : ℚ) * 2 ^ e / 2 ^ 52 - q|
      = |(roundHalfEven (q * 2 ^ 52 / 2 ^ e) : ℚ) - q * 2 ^ 52 / 2 ^ e| * (2 ^ e / 2 ^ 52) := by
        rw [← abs_of_pos (show (0 : ℚ) < 2 ^ e / 2 ^ 52 by positivity), ← abs_mul]
        congr 1
        field_simp
        ring
    _ ≤ (1 / 2) * (2 ^ 9 / 2 ^ 52) := by
        apply mul_le_mul key ?_ (by positivity) (by norm_num)
        exact (div_le_div_iff_of_pos_right (by positivity)).mpr h2e
    _ = 1 / 2 ^ 44 := by norm_num

lemma floor_add_small (z δ : ℚ) (k : ℤ) (hlo : (k : ℚ) + 1 / 100 ≤ z)
    (hhi : z ≤ (k : ℚ) + 99 / 100) (hδ : |δ| ≤ 1 / 2 ^ 40) : ⌊z + δ⌋ = k := by
  have hsmall : (1 : ℚ) / 2 ^ 40 ≤ 1 / 100 := by norm_num
  rcases abs_le.mp hδ with ⟨hδ1, hδ2⟩
  rw [Int.floor_eq_iff]
  constructor
  · linarith
  · linarith

/-- Claim C8 counterexample: at `num = 1150` the code renders `"1.1k"` although
`1150 / 1000 = 1.15` rounded to one decimal place is `1.2`: binary64 cannot
represent `1.15` and the division result is slightly below it, so `toFixed(1)`
rounds down to `1.1`. -/
theorem formatNumber_1150 :
    formatNumber 1150 = "1.1k" ∧ specFormatNumber 1150 = "1.2k" ∧
      formatNumber 1150 ≠ specFormatNumber 1150 := by
  have hcode : formatNumber 1150 = "1.1k" := by
    have h1 : ⌊(1150 : ℚ) / 1000⌋ = (1 : ℤ) := by norm_num
    have hd : jsDouble ((1150 : ℚ) / 1000) = 5179139571476070 / 2 ^ 52 := by
      rw [jsDouble, h1]
      norm_num [roundHalfEven, Nat.log2]
    have hm : ⌊jsDouble ((1150 : ℚ) / 1000) * 10 + 1 / 2⌋ = (11 : ℤ) := by
      rw [hd]
      norm_num
    unfold formatNumber jsToFixed1
    rw [if_pos (by norm_num)]
    simp only [Nat.cast_ofNat]
    rw [hm]
    norm_num
    rfl
  have hspec : specFormatNumber 1150 = "1.2k" := by
    have hm : ⌊(1150 : ℚ) / 100 + 1 / 2⌋ = (12 : ℤ) := by norm_num
    unfold specFormatNumber
    rw [if_pos (by norm_num)]
    simp only [Nat.cast_ofNat]
    rw [hm]
    norm_num
    rfl
  refine ⟨hcode, hspec, ?_⟩
  rw [hcode, hspec]
  decide

lemma floor_code_eq_floor_spec (num : ℕ) (h1 : 1000 ≤ num) (h6 : num ≤ 1000000)
    (h50 : num % 100 ≠ 50) :
    ⌊jsDouble ((num : ℚ) / 1000) * 10 + 1 / 2⌋ = ⌊(num : ℚ) / 100 + 1 / 2⌋ := by
  have hq1 : 1 ≤ (num : ℚ) / 1000 := by
    rw [le_div_iff₀ (by norm_num)]
    have : (1000 : ℚ) ≤ (num : ℚ) := by exact_mod_cast h1
    linarith
  have hq2 : (num : ℚ) / 1000 ≤ 1000 := by
    rw [div_le_iff₀ (by norm_num)]
    have : (num : ℚ) ≤ 1000000 := by exact_mod_cast h6
    linarith
  have herr := jsDouble_sub_abs _ hq1 hq2
  obtain ⟨k, hk⟩ : ∃ m : ℤ, ⌊(num : ℚ) / 100 + 1 / 2⌋ = m := ⟨_, rfl⟩
  have hzk0 : (k : ℚ) ≤ (num : ℚ) / 100 + 1 / 2 := by
    rw [← hk]
    exact Int.floor_le _
  have hzk1 : (num : ℚ) / 100 + 1 / 2 < k + 1 := by
    rw [← hk]
    exact Int.lt_floor_add_one _
  obtain ⟨j, hj⟩ : ∃ j : ℤ, (num : ℤ) + 50 - 100 * k = j := ⟨_, rfl⟩
  have hjq : (j : ℚ) = 100 * (((num : ℚ) / 100 + 1 / 2) - k) := by
    rw [← hj]
    push_cast
    ring
  have hj0 : 0 ≤ j := by
    have h : (0 : ℚ) ≤ (j : ℚ) := by
      rw [hjq]
      linarith
    exact_mod_cast h
  have hj100 : j < 100 := by
    have h : (j : ℚ) < 100 := by
      rw [hjq]
      linarith
    exact_mod_cast h
  have hjne : j ≠ 0 := by
    intro h0
    rw [h0] at hj
    omega
  have hj1 : 1 ≤ j := by omega
  have hj99 : j ≤ 99 := by omega
  have hlo : (k : ℚ) + 1 / 100 ≤ (num : ℚ) / 100 + 1 / 2 := by
    have h1j : (1 : ℚ) ≤ (j : ℚ) := by exact_mod_cast hj1
    rw [hjq] at h1j
    linarith
  have hhi : (num : ℚ) / 100 + 1 / 2 ≤ (k : ℚ) + 99 / 100 := by
    have h99 : (j : ℚ) ≤ 99 := by exact_mod_cast hj99
    rw [hjq] at h99
    linarith
  have harg : jsDouble ((num : ℚ) / 1000) * 10 + 1 / 2 =
      ((num : ℚ) / 100 + 1 / 2) +
        10 * (jsDouble ((num : ℚ) / 1000) - (num : ℚ) / 1000) := by
    ring
  have hδ : |10 * (jsDouble ((num : ℚ) / 1000) - (num : ℚ) / 1000)| ≤ 1 / 2 ^ 40 := by
    rw [abs_mul, show |(10 : ℚ)| = 10 by norm_num]
    calc (10 : ℚ) * |jsDouble ((num : ℚ) / 1000) - (num : ℚ) / 1000|
        ≤ 10 * (1 / 2 ^ 44) := by linarith
      _ ≤ 1 / 2 ^ 40 := by norm_num
  rw [harg, hk]
  exact floor_add_small _ _ k hlo hhi hδ

/-- Claim C8 (amended): for star counts below `1000` the label is the literal
integer.  For `1000 ≤ n ≤ 10 ^ 6` whose last two digits are not `50` (so that
`n / 1000` is not exactly half way between two one-decimal values) the label is
`(n / 1000)` rounded half-up to one decimal place followed by `k`.  At the
midpoint inputs the label instead follows the binary64 value nearest to
`n / 1000`, which can lie below the midpoint (see `formatNumber_1150`). -/
theorem formatNumber_matches_spec (num : Nat) :
    (num < 1000 → formatNumber num = toString num) ∧
    (1000 ≤ num → num ≤ 1000000 → num % 100 ≠ 50 →
      formatNumber num = specFormatNumber num) := by
  constructor
  · intro h
    unfold formatNumber
    rw [if_neg (by omega)]
  · intro h1 h6 h50
    unfold formatNumber specFormatNumber jsToFixed1
    rw [if_pos h1, if_pos h1]
    rw [floor_code_eq_floor_spec num h1 h6 h50]

/-- Witness for `formatNumber_matches_spec`: at `num = 1500` (not a midpoint)
the code label and the spec label agree. -/
theorem formatNumber_matches_spec_w :
    1000 ≤ 1500 ∧ 1500 ≤ 1000000 ∧ 1500 % 100 ≠ 50 ∧
      formatNumber 1500 = specFormatNumber 1500 :=
  ⟨by norm_num, by norm_num, by norm_num,
    (formatNumber_matches_spec 1500).2 (by norm_num) (by norm_num) (by norm_num)⟩

/-!
## Ticker engine state machine (`js/trending-ticker.js`)

The widget's module-level variables (lines 10-17) form the state; the
IntersectionObserver callback (lines 31-37), the two fetch continuations
(lines 41-54), the `animate` frame callback (lines 83-115) and the
`pauseTicker` timeout completion (lines 117-122) are the transitions.
`requestAnimationFrame` bookkeeping is explicit: `pending` counts
scheduled-but-not-yet-run frame callbacks, `rafCount` counts every
`requestAnimationFrame` call ever made, and `animId` records whether the
`animationId` variable currently holds an id (the code only ever tests it
against null).  The content and container widths are fixed parameters of a
run (the code re-reads them from the DOM each frame; the claims are about a
fixed layout, with `TICKER_SPEED = 50` px/s).
-/

/-- What `tickerElement.innerHTML` currently holds. -/
inductive TickerContent where
  | empty : TickerContent
  | cards (repos : List TrendingRepo) : TickerContent
  | errorMsg : TickerContent
  deriving DecidableEq

/-- Fixed layout parameters: `tickerElement.scrollWidth / 2` and
`container.offsetWidth` (`js/trending-ticker.js` lines 93-94, 103). -/
structure TickerLayout where
  contentWidth : ℚ
  containerWidth : ℚ
  deriving DecidableEq

/-- The module-level mutable variables of `js/trending-ticker.js` (lines
10-17) plus the explicit `requestAnimationFrame` bookkeeping. -/
structure LoopState where
  repos : List TrendingRepo
  content : TickerContent
  isPaused : Bool
  isVisible : Bool
  direction : ℤ
  currentPosition : ℚ
  lastTime : ℚ
  animId : Bool
  pending : ℕ
  rafCount : ℕ
  deriving DecidableEq

/-- Initial values of the module variables (lines 10-17): `direction = -1`
("start moving left"), `currentPosition = 0`, `lastTime = 0`, nothing
scheduled. -/
def initState : LoopState :=
  { repos := [], content := .empty, isPaused := false, isVisible := true,
    direction := -1, currentPosition := 0, lastTime := 0,
    animId := false, pending := 0, rafCount := 0 }

/-- `animationId = requestAnimationFrame(animate)`: one more callback becomes
pending and the total request count grows. -/
def schedule (s : LoopState) : LoopState :=
  { s with animId := true, pending := s.pending + 1, rafCount := s.rafCount + 1 }

/-- The events the browser can deliver to the widget. -/
inductive TickerEvent where
  | observerFire (intersecting : Bool) (now : ℚ)
  | fetchSuccess (payload : List TrendingRepo) (now : ℚ)
  | fetchFail
  | frame (t : ℚ)
  | pauseEnd

/-- The IntersectionObserver callback (lines 31-37): record visibility; if
visible and `animationId` is null, reset `lastTime` and schedule a frame. -/
def observerStep (b : Bool) (now : ℚ) (s : LoopState) : LoopState :=
  if b && !s.animId then schedule { s with isVisible := b, lastTime := now }
  else { s with isVisible := b }

/-- `renderTicker` (lines 57-76): with no repos it returns without touching
the DOM; otherwise it fills the strip with the duplicated card list. -/
def renderTicker (s : LoopState) : LoopState :=
  if s.repos.length = 0 then s else { s with content := .cards s.repos }

/-- `startAnimation` (lines 78-81): reset `lastTime` and schedule a frame,
unconditionally. -/
def startAnimation (now : ℚ) (s : LoopState) : LoopState :=
  schedule { s with lastTime := now }

/-- The fetch success continuation (lines 46-50): sort, render, start. -/
def fetchSuccessStep (payload : List TrendingRepo) (now : ℚ) (s : LoopState) :
    LoopState :=
  startAnimation now (renderTicker { s with repos := jsSortRepos payload })

/-- The fetch failure handler (lines 51-54): render the fallback message. -/
def fetchFailStep (s : LoopState) : LoopState :=
  { s with content := .errorMsg }

/-- The un-paused body of `animate` (lines 89-109): advance the position by
`TICKER_SPEED * direction * deltaTime` and clamp it at either bound, flipping
`direction` and calling `pauseTicker()` there. -/
def moveStep (cfg : TickerLayout) (t : ℚ) (s : LoopState) : LoopState :=
  if s.currentPosition + 50 * (s.direction : ℚ) * ((t - s.lastTime) / 1000) ≥ 0 then
    { s with currentPosition := 0, direction := -1, isPaused := true,
             lastTime := t }
  else if s.currentPosition + 50 * (s.direction : ℚ) * ((t - s.lastTime) / 1000) ≤
      -(cfg.contentWidth - cfg.containerWidth) then
    { s with currentPosition := -(cfg.contentWidth - cfg.containerWidth),
             direction := 1, isPaused := true, lastTime := t }
  else
    { s with
        currentPosition :=
          s.currentPosition + 50 * (s.direction : ℚ) * ((t - s.lastTime) / 1000),
        lastTime := t }

/-- The `animate` callback (lines 83-115), which runs when a pending frame
fires: while not visible it sets `animationId = null` and does not
re-schedule; while paused it only refreshes `lastTime` (line 111); otherwise
it moves; in the last two cases it re-schedules itself (line 114). -/
def frameStep (cfg : TickerLayout) (t : ℚ) (s : LoopState) : LoopState :=
  if s.pending = 0 then s
  else if s.isVisible then
    if s.isPaused then schedule { s with pending := s.pending - 1, lastTime := t }
    else schedule (moveStep cfg t { s with pending := s.pending - 1 })
  else { s with pending := s.pending - 1, animId := false }

/-- The `pauseTicker` timeout completion (lines 119-121). -/
def pauseEndStep (s : LoopState) : LoopState :=
  { s with isPaused := false }

/-- One event of the widget. -/
def step (cfg : TickerLayout) (s : LoopState) : TickerEvent → LoopState
  | .observerFire b now => observerStep b now s
  | .fetchSuccess payload now => fetchSuccessStep payload now s
  | .fetchFail => fetchFailStep s
  | .frame t => frameStep cfg t s
  | .pauseEnd => pauseEndStep s

/-- A run of the widget from the initial module state. -/
def runLoop (cfg : TickerLayout) (events : List TickerEvent) : LoopState :=
  events.foldl (step cfg) initState

/-- Claim C10: when the fetch succeeds with an empty array, `renderTicker`
returns without changing the DOM (no cards and no fallback message), yet
`startAnimation` is still invoked, so a frame is scheduled and the animation
loop runs over the empty strip. -/
theorem fetchSuccess_empty_animates_without_render
    (cfg : TickerLayout) (s : LoopState) (now : ℚ) :
    (step cfg s (.fetchSuccess [] now)).content = s.content ∧
    (step cfg s (.fetchSuccess [] now)).currentPosition = s.currentPosition ∧
    (step cfg s (.fetchSuccess [] now)).repos = [] ∧
    (step cfg s (.fetchSuccess [] now)).pending = s.pending + 1 ∧
    (step cfg s (.fetchSuccess [] now)).rafCount = s.rafCount + 1 := by
  simp [step, fetchSuccessStep, renderTicker, startAnimation, schedule,
    jsSortRepos]

/-- Claim C3 (code defect): when the IntersectionObserver's initial callback
(container visible) fires before the fetch resolves — the usual order — the
observer schedules `animate` (`animationId` was null), and the fetch success
path later calls `startAnimation()`, which schedules again without checking
`animationId`: two frame callbacks are pending at once, and each firing frame
re-schedules itself, so two callbacks stay pending and the animation advances
twice per display frame. -/
theorem double_schedule_after_observer_then_load :
    (runLoop ⟨200, 100⟩ [.observerFire true 0, .fetchSuccess [] 0]).pending = 2 ∧
    (runLoop ⟨200, 100⟩
        [.observerFire true 0, .fetchSuccess [] 0,
          .frame 16, .frame 17]).pending = 2 := by
  constructor
  · norm_num [runLoop, step, observerStep, fetchSuccessStep, startAnimation,
      renderTicker, schedule, initState, jsSortRepos, List.foldl_cons,
      List.foldl_nil]
  · norm_num [runLoop, step, observerStep, fetchSuccessStep, startAnimation,
      renderTicker, schedule, initState, jsSortRepos, frameStep, moveStep,
      List.foldl_cons, List.foldl_nil]

/-- Claim C4 (code defect): with the container visible, the observer callback
schedules `animate` no matter how the fetch ends, so after a fetch failure the
widget renders the fallback message but animation-frame requests are still
issued — and each frame keeps re-scheduling over the fallback message. -/
theorem fetchFail_still_schedules_frames :
    (runLoop ⟨200, 100⟩ [.observerFire true 0, .fetchFail]).content =
        TickerContent.errorMsg ∧
    (runLoop ⟨200, 100⟩ [.observerFire true 0, .fetchFail]).rafCount = 1 ∧
    (runLoop ⟨200, 100⟩
        [.observerFire true 0, .fetchFail, .frame 16]).rafCount = 2 := by
  refine ⟨?_, ?_, ?_⟩
  · norm_num [runLoop, step, observerStep, fetchFailStep, schedule, initState,
      List.foldl_cons, List.foldl_nil]
  · norm_num [runLoop, step, observerStep, fetchFailStep, schedule, initState,
      List.foldl_cons, List.foldl_nil]
  · norm_num [runLoop, step, observerStep, fetchFailStep, schedule, initState,
      frameStep, moveStep, List.foldl_cons, List.foldl_nil]

/-- The reachable-state invariant of the animation: the direction is one of
the two unit directions, the position lies in the closed band
`[-(contentWidth - containerWidth), 0]`, and the state never rests at a bound
pointing outward (the clamp always turns the direction inward). -/
def TickerInv (cfg : TickerLayout) (s : LoopState) : Prop :=
  (s.direction = 1 ∨ s.direction = -1) ∧
  -(cfg.contentWidth - cfg.containerWidth) ≤ s.currentPosition ∧
  s.currentPosition ≤ 0 ∧
  ¬(s.currentPosition = 0 ∧ s.direction = 1) ∧
  ¬(s.currentPosition = -(cfg.contentWidth - cfg.containerWidth) ∧
      s.direction = -1)

lemma tickerInv_congr {cfg : TickerLayout} {s s' : LoopState}
    (hdir : s'.direction = s.direction)
    (hpos : s'.currentPosition = s.currentPosition)
    (hs : TickerInv cfg s) : TickerInv cfg s' := by
  unfold TickerInv at hs ⊢
  rw [hdir, hpos]
  exact hs

lemma tickerInv_init (cfg : TickerLayout)
    (hW : cfg.containerWidth < cfg.contentWidth) : TickerInv cfg initState := by
  unfold TickerInv initState
  dsimp only
  refine ⟨Or.inr rfl, by linarith, le_refl 0, ?_, ?_⟩
  · rintro ⟨-, h⟩
    norm_num at h
  · rintro ⟨h, -⟩
    have h' : (0 : ℚ) = -(cfg.contentWidth - cfg.containerWidth) := h
    linarith

lemma tickerInv_moveStep (cfg : TickerLayout)
    (hW : cfg.containerWidth < cfg.contentWidth) (t : ℚ) (s : LoopState)
    (hs : TickerInv cfg s) : TickerInv cfg (moveStep cfg t s) := by
  obtain ⟨hdir, hle, hge, hb0, hbW⟩ := hs
  unfold moveStep
  split_ifs with h0 hWc
  · unfold TickerInv
    dsimp only
    refine ⟨Or.inr rfl, by linarith, le_refl 0, ?_, ?_⟩
    · rintro ⟨-, h⟩
      norm_num at h
    · rintro ⟨h, -⟩
      have h' : (0 : ℚ) = -(cfg.contentWidth - cfg.containerWidth) := h
      linarith
  · unfold TickerInv
    dsimp only
    refine ⟨Or.inl rfl, le_refl _, by linarith, ?_, ?_⟩
    · rintro ⟨h, -⟩
      have h' : -(cfg.contentWidth - cfg.containerWidth) = (0 : ℚ) := h
      linarith
    · rintro ⟨-, h⟩
      norm_num at h
  · have hlt : s.currentPosition +
        50 * (s.direction : ℚ) * ((t - s.lastTime) / 1000) < 0 := not_le.mp h0
    have hgt : -(cfg.contentWidth - cfg.containerWidth) <
        s.currentPosition +
          50 * (s.direction : ℚ) * ((t - s.lastTime) / 1000) := not_le.mp hWc
    unfold TickerInv
    dsimp only
    refine ⟨hdir, le_of_lt hgt, le_of_lt hlt, ?_, ?_⟩
    · rintro ⟨h, -⟩
      rw [h] at hlt
      exact lt_irrefl _ hlt
    · rintro ⟨h, -⟩
      rw [h] at hgt
      exact lt_irrefl _ hgt

lemma tickerInv_step (cfg : TickerLayout)
    (hW : cfg.containerWidth < cfg.contentWidth) (s : LoopState)
    (e : TickerEvent) (hs : TickerInv cfg s) : TickerInv cfg (step cfg s e) := by
  cases e with
  | observerFire b now =>
    show TickerInv cfg (observerStep b now s)
    unfold observerStep
    split
    · exact tickerInv_congr rfl rfl hs
    · exact tickerInv_congr rfl rfl hs
  | fetchSuccess payload now =>
    show TickerInv cfg (fetchSuccessStep payload now s)
    unfold fetchSuccessStep startAnimation renderTicker
    split
    · exact tickerInv_congr rfl rfl hs
    · exact tickerInv_congr rfl rfl hs
  | fetchFail =>
    exact tickerInv_congr rfl rfl hs
  | frame t =>
    show TickerInv cfg (frameStep cfg t s)
    unfold frameStep
    split
    · exact hs
    · split
      · split
        · exact tickerInv_congr rfl rfl hs
        · refine tickerInv_moveStep cfg hW t _ ?_
          exact tickerInv_congr rfl rfl hs
      · exact tickerInv_congr rfl rfl hs
  | pauseEnd =>
    exact tickerInv_congr rfl rfl hs

lemma tickerInv_run (cfg : TickerLayout)
    (hW : cfg.containerWidth < cfg.contentWidth) (events : List TickerEvent) :
    TickerInv cfg (runLoop cfg events) := by
  suffices h : ∀ s, TickerInv cfg s →
      TickerInv cfg (events.foldl (step cfg) s) from
    h initState (tickerInv_init cfg hW)
  induction events with
  | nil => exact fun s hs => hs
  | cons e es ih => exact fun s hs => ih _ (tickerInv_step cfg hW s e hs)

lemma frame_flip_iff (cfg : TickerLayout)
    (hW : cfg.containerWidth < cfg.contentWidth) (s : LoopState) (t : ℚ)
    (hs : TickerInv cfg s) (hv : s.isVisible = true) (hp : s.isPaused = false)
    (hpend : s.pending ≠ 0) (ht : s.lastTime ≤ t) :
    (frameStep cfg t s).direction ≠ s.direction ↔
      ((frameStep cfg t s).currentPosition = 0 ∧ s.currentPosition ≠ 0) ∨
      ((frameStep cfg t s).currentPosition =
            -(cfg.contentWidth - cfg.containerWidth) ∧
          s.currentPosition ≠ -(cfg.contentWidth - cfg.containerWidth)) := by
  obtain ⟨hdir, hle, hge, hb0, hbW⟩ := hs
  have hdt : (0 : ℚ) ≤ (t - s.lastTime) / 1000 :=
    div_nonneg (by linarith) (by norm_num)
  have hWne : (0 : ℚ) ≠ -(cfg.contentWidth - cfg.containerWidth) := by
    intro h
    have h' : cfg.contentWidth - cfg.containerWidth = 0 := by linarith
    linarith
  have hframe : frameStep cfg t s =
      schedule (moveStep cfg t { s with pending := s.pending - 1 }) := by
    unfold frameStep
    rw [if_neg hpend]
    simp [hv, hp]
  rw [hframe]
  show (moveStep cfg t { s with pending := s.pending - 1 }).direction ≠
      s.direction ↔ _
  unfold moveStep
  dsimp only
  split_ifs with hA hB
  · dsimp only
    constructor
    · intro hne
      rcases hdir with h1 | h1
      · exact Or.inl ⟨rfl, fun hp0 => hb0 ⟨hp0, h1⟩⟩
      · rw [h1] at hne
        exact absurd rfl hne
    · rintro (⟨-, hp0⟩ | ⟨h0, -⟩)
      · rcases hdir with h1 | h1
        · rw [h1]
          decide
        · exfalso
          have hcast : ((s.direction : ℤ) : ℚ) = -1 := by
            rw [h1]
            norm_num
          rw [hcast] at hA
          have hplt : s.currentPosition < 0 := lt_of_le_of_ne hge hp0
          nlinarith [mul_nonneg (by norm_num : (0:ℚ) ≤ 50) hdt]
      · exact absurd h0 hWne
  · dsimp only
    constructor
    · intro hne
      rcases hdir with h1 | h1
      · rw [h1] at hne
        exact absurd rfl hne
      · exact Or.inr ⟨rfl, fun hpw => hbW ⟨hpw, h1⟩⟩
    · rintro (⟨h0, -⟩ | ⟨-, hpw⟩)
      · exact absurd h0.symm hWne
      · rcases hdir with h1 | h1
        · exfalso
          have hcast : ((s.direction : ℤ) : ℚ) = 1 := by
            rw [h1]
            norm_num
          rw [hcast] at hB
          have hpgt : -(cfg.contentWidth - cfg.containerWidth) <
              s.currentPosition := lt_of_le_of_ne hle (Ne.symm hpw)
          nlinarith [mul_nonneg (by norm_num : (0:ℚ) ≤ 50) hdt]
        · rw [h1]
          decide
  · dsimp only
    have hlt : s.currentPosition +
        50 * (s.direction : ℚ) * ((t - s.lastTime) / 1000) < 0 := not_le.mp hA
    have hgt : -(cfg.contentWidth - cfg.containerWidth) <
        s.currentPosition +
          50 * (s.direction : ℚ) * ((t - s.lastTime) / 1000) := not_le.mp hB
    constructor
    · intro h
      exact absurd rfl h
    · rintro (⟨h, -⟩ | ⟨h, -⟩)
      · simp only [schedule] at h
        rw [h] at hlt
        exact absurd hlt (by norm_num)
      · simp only [schedule] at h
        rw [h] at hgt
        exact absurd hgt (lt_irrefl _)

/-- Claim C1: for every sequence of events delivered to the widget — any tick
timestamps, visibility changes, fetch outcomes, dwell completions — the
position stays in the closed range `[-(contentWidth - containerWidth), 0]`;
and on a moving frame (visible, un-paused, monotone timestamp) the direction
flips exactly when the position reaches a bound it was not already resting
at. -/
theorem ticker_position_in_range (cfg : TickerLayout)
    (hW : cfg.containerWidth < cfg.contentWidth) (events : List TickerEvent) :
    (-(cfg.contentWidth - cfg.containerWidth) ≤
        (runLoop cfg events).currentPosition ∧
      (runLoop cfg events).currentPosition ≤ 0) ∧
    ∀ t : ℚ, (runLoop cfg events).isVisible = true →
      (runLoop cfg events).isPaused = false →
      (runLoop cfg events).pending ≠ 0 →
      (runLoop cfg events).lastTime ≤ t →
      ((frameStep cfg t (runLoop cfg events)).direction ≠
          (runLoop cfg events).direction ↔
        ((frameStep cfg t (runLoop cfg events)).currentPosition = 0 ∧
            (runLoop cfg events).currentPosition ≠ 0) ∨
        ((frameStep cfg t (runLoop cfg events)).currentPosition =
              -(cfg.contentWidth - cfg.containerWidth) ∧
            (runLoop cfg events).currentPosition ≠
              -(cfg.contentWidth - cfg.containerWidth))) := by
  have hs := tickerInv_run cfg hW events
  exact ⟨⟨hs.2.1, hs.2.2.1⟩,
    fun t hv hp hpend ht => frame_flip_iff cfg hW _ t hs hv hp hpend ht⟩

/-- Witness for `ticker_position_in_range` on a concrete layout and trace. -/
theorem ticker_position_in_range_w :
    (100 : ℚ) < 200 ∧
      -((200 : ℚ) - 100) ≤
        (runLoop ⟨200, 100⟩
            [.observerFire true 0, .fetchSuccess [] 0,
              .frame 16]).currentPosition ∧
      (runLoop ⟨200, 100⟩
          [.observerFire true 0, .fetchSuccess [] 0,
            .frame 16]).currentPosition ≤ 0 :=
  ⟨by norm_num,
    (ticker_position_in_range ⟨200, 100⟩ (by norm_num)
        [.observerFire true 0, .fetchSuccess [] 0, .frame 16]).1.1,
    (ticker_position_in_range ⟨200, 100⟩ (by norm_num)
        [.observerFire true 0, .fetchSuccess [] 0, .frame 16]).1.2⟩

lemma frameStep_interior (cfg : TickerLayout) (t : ℚ) (s : LoopState)
    (hv : s.isVisible = true) (hp : s.isPaused = false) (hpend : s.pending ≠ 0)
    (hgt : -(cfg.contentWidth - cfg.containerWidth) <
      s.currentPosition + 50 * (s.direction : ℚ) * ((t - s.lastTime) / 1000))
    (hlt : s.currentPosition +
      50 * (s.direction : ℚ) * ((t - s.lastTime) / 1000) < 0) :
    (frameStep cfg t s).currentPosition =
      s.currentPosition + 50 * (s.direction : ℚ) * ((t - s.lastTime) / 1000) ∧
    (frameStep cfg t s).direction = s.direction ∧
    (frameStep cfg t s).isPaused = false ∧
    (frameStep cfg t s).lastTime = t ∧
    (frameStep cfg t s).pending = s.pending := by
  have h : frameStep cfg t s =
      schedule (moveStep cfg t { s with pending := s.pending - 1 }) := by
    unfold frameStep
    rw [if_neg hpend]
    simp [hv, hp]
  rw [h]
  unfold moveStep
  dsimp only
  rw [if_neg (not_le.mpr hlt), if_neg (not_le.mpr hgt)]
  refine ⟨rfl, rfl, hp, rfl, ?_⟩
  simp only [schedule]
  omega

/-- Claim C2: while the dwell is active, a frame leaves position and direction
unchanged and refreshes `lastTime` to the frame's own timestamp (line 111);
when a moving frame reaches a bound, the position is clamped exactly to that
bound and the dwell starts; and the first moving frame after the dwell ends
advances the position by exactly `speed * direction * (t' - t) / 1000`, where
`t` is the previous (paused) frame's timestamp — never by an amount that
includes the dwell duration. -/
theorem dwell_freezes_and_resumes (cfg : TickerLayout) (s : LoopState)
    (t t' : ℚ) (hv : s.isVisible = true) (hpend : s.pending ≠ 0) :
    (s.isPaused = true →
      (frameStep cfg t s).currentPosition = s.currentPosition ∧
      (frameStep cfg t s).direction = s.direction ∧
      (frameStep cfg t s).isPaused = true ∧
      (frameStep cfg t s).lastTime = t) ∧
    (s.isPaused = false →
      s.currentPosition + 50 * (s.direction : ℚ) * ((t - s.lastTime) / 1000) ≥ 0 →
      (frameStep cfg t s).currentPosition = 0 ∧
        (frameStep cfg t s).isPaused = true) ∧
    (s.isPaused = false →
      ¬(s.currentPosition +
          50 * (s.direction : ℚ) * ((t - s.lastTime) / 1000) ≥ 0) →
      s.currentPosition + 50 * (s.direction : ℚ) * ((t - s.lastTime) / 1000) ≤
        -(cfg.contentWidth - cfg.containerWidth) →
      (frameStep cfg t s).currentPosition =
          -(cfg.contentWidth - cfg.containerWidth) ∧
        (frameStep cfg t s).isPaused = true) ∧
    (s.isPaused = true →
      -(cfg.contentWidth - cfg.containerWidth) <
        s.currentPosition + 50 * (s.direction : ℚ) * ((t' - t) / 1000) →
      s.currentPosition + 50 * (s.direction : ℚ) * ((t' - t) / 1000) < 0 →
      (frameStep cfg t' (pauseEndStep (frameStep cfg t s))).currentPosition =
        s.currentPosition + 50 * (s.direction : ℚ) * ((t' - t) / 1000)) := by
  refine ⟨?_, ?_, ?_, ?_⟩
  · intro hpause
    have h : frameStep cfg t s =
        schedule { s with pending := s.pending - 1, lastTime := t } := by
      unfold frameStep
      rw [if_neg hpend]
      simp [hv, hpause]
    rw [h]
    exact ⟨rfl, rfl, hpause, rfl⟩
  · intro hpause hraw
    have h : frameStep cfg t s =
        schedule (moveStep cfg t { s with pending := s.pending - 1 }) := by
      unfold frameStep
      rw [if_neg hpend]
      simp [hv, hpause]
    rw [h]
    unfold moveStep
    dsimp only
    rw [if_pos hraw]
    exact ⟨rfl, rfl⟩
  · intro hpause hnot hbound
    have h : frameStep cfg t s =
        schedule (moveStep cfg t { s with pending := s.pending - 1 }) := by
      unfold frameStep
      rw [if_neg hpend]
      simp [hv, hpause]
    rw [h]
    unfold moveStep
    dsimp only
    rw [if_neg hnot, if_pos hbound]
    exact ⟨rfl, rfl⟩
  · intro hpause hgt hlt
    have h1 : frameStep cfg t s =
        schedule { s with pending := s.pending - 1, lastTime := t } := by
      unfold frameStep
      rw [if_neg hpend]
      simp [hv, hpause]
    rw [h1]
    exact (frameStep_interior cfg t'
      (pauseEndStep
        (schedule { s with pending := s.pending - 1, lastTime := t }))
      hv rfl (by simp [pauseEndStep, schedule]) hgt hlt).1

/-- Witness state for `dwell_freezes_and_resumes`: visible, paused at the far
bound with the dwell running, direction already flipped forward. -/
def pausedState : LoopState :=
  { repos := [], content := .empty, isPaused := true, isVisible := true,
    direction := 1, currentPosition := -50, lastTime := 0,
    animId := true, pending := 1, rafCount := 1 }

/-- Witness for `dwell_freezes_and_resumes`: a paused frame at `t = 1000`,
dwell end, then a moving frame at `t' = 1500` advance the position by exactly
`50 * (500 / 1000) = 25` pixels. -/
theorem dwell_freezes_and_resumes_w :
    (pausedState.isVisible = true ∧ pausedState.pending ≠ 0 ∧
      pausedState.isPaused = true) ∧
    (frameStep ⟨200, 100⟩ 1000 pausedState).currentPosition =
      pausedState.currentPosition ∧
    (frameStep ⟨200, 100⟩ 1500
        (pauseEndStep (frameStep ⟨200, 100⟩ 1000 pausedState))).currentPosition =
      pausedState.currentPosition +
        50 * (pausedState.direction : ℚ) * ((1500 - 1000) / 1000) :=
  ⟨⟨rfl, by norm_num [pausedState], rfl⟩,
    ((dwell_freezes_and_resumes ⟨200, 100⟩ pausedState 1000 1500 rfl
        (by norm_num [pausedState])).1 rfl).1,
    (dwell_freezes_and_resumes ⟨200, 100⟩ pausedState 1000 1500 rfl
        (by norm_num [pausedState])).2.2.2 rfl
      (by norm_num [pausedState]) (by norm_num [pausedState])⟩

/-!
## QC harness: navigation walk (`visual-qc.spec.js` lines 86-126)

The test "navigation has all 8 links that WORK" iterates over 8 declared
`(name, path, element)` tuples; each iteration awaits several `expect`
assertions.  A rejected `expect` promise aborts the whole test immediately
(no soft assertions are used), so the iteration stops at the first failing
tuple.  The per-tuple outcome on a given deployment is abstracted as a
boolean `check` of the tuple.
-/

/-- One entry of `pagesToTest` (`visual-qc.spec.js` lines 93-102). -/
structure NavTuple where
  name : String
  path : String
  element : String
  deriving DecidableEq

/-- The 8 declared `(name, path, element)` tuples. -/
def pagesToTest : List NavTuple :=
  [⟨"Home", "/", "[data-testid=\"page-home\"]"⟩,
   ⟨"Blog", "/blog/", "[data-testid=\"page-blog\"]"⟩,
   ⟨"Reviews", "/reviews/", "[data-testid=\"page-reviews\"]"⟩,
   ⟨"Walkthroughs", "/blog/walkthroughs.html", "[data-testid=\"page-walkthroughs\"]"⟩,
   ⟨"Resources", "/resources.html", "[data-testid=\"page-resources\"]"⟩,
   ⟨"KAI Corner", "/kai-corner.html", "[data-testid=\"page-kai-corner\"]"⟩,
   ⟨"Tasks", "/tasks.html", "[data-testid=\"page-tasks\"]"⟩,
   ⟨"Tools", "/tools.html", "[data-testid=\"page-tools\"]"⟩]

/-- The `for (const pg of pagesToTest)` loop (lines 104-125): a passing tuple
is recorded and the loop continues; a failing `await expect` throws, so the
failing tuple is recorded and the loop — and test — ends there. -/
def runNavWalk (check : NavTuple → Bool) :
    List NavTuple → List (NavTuple × Bool)
  | [] => []
  | t :: ts =>
    if check t then (t, true) :: runNavWalk check ts else [(t, false)]

/-- Claim C5 counterexample: when the very first tuple fails, the walk visits
one tuple of the declared 8 and never reaches the remaining seven — the
harness is fail-fast, not continue-on-failure, and later tuples are clicked
from whatever page the previous tuple reached, so outcomes are not
independent. -/
theorem navWalk_fail_fast_cx :
    (runNavWalk (fun nt => nt.name != "Home") pagesToTest).length = 1 ∧
      pagesToTest.length = 8 ∧
      (runNavWalk (fun nt => nt.name != "Home") pagesToTest).map Prod.fst ≠
        pagesToTest := by
  refine ⟨?_, rfl, ?_⟩ <;> decide

/-- Claim C5 (amended): the navigation walk visits tuples in order only up to
and including the first failure: the visited list is the longest all-passing
prefix, then the first failing tuple recorded as failed; tuples after the
first failure are never visited.  When every tuple passes, all 8 declared
tuples are visited and recorded. -/
theorem navWalk_characterisation :
    (∀ (check : NavTuple → Bool) (l : List NavTuple),
      runNavWalk check l =
        (l.takeWhile check).map (fun nt => (nt, true)) ++
          ((l.dropWhile check).take 1).map (fun nt => (nt, false))) ∧
    pagesToTest.length = 8 := by
  refine ⟨?_, rfl⟩
  intro check l
  induction l with
  | nil => rfl
  | cons t ts ih =>
    by_cases h : check t
    · simp [runNavWalk, h, List.takeWhile_cons, List.dropWhile_cons, ih]
    · simp [runNavWalk, h, List.takeWhile_cons, List.dropWhile_cons]

/-!
## QC harness: per-test report writing (`visual-qc.spec.js` lines 245-290)

`test.afterEach` copies every `.png` of the shared `screenshots/` directory
into `../qc/<date>/screenshots/`, then writes `report.json` with
`fs.writeFileSync`: a single object for the test that just finished
(`timestamp`, `test`, `status`, `duration`, `artifacts` = the full directory
listing filtered to `.png`).  `writeFileSync` replaces the previous file
contents.
-/

/-- One finished test case as `testInfo` presents it to `afterEach`, plus the
screenshots the case wrote into the shared directory while running. -/
structure TestCaseRun where
  timestamp : String
  title : String
  status : String
  duration : ℕ
  newScreenshots : List String
  deriving DecidableEq

/-- The content of `../qc/<date>/report.json` after a write (lines 269-284):
one object, holding a single test's result. -/
structure QCReportFile where
  timestamp : String
  test : String
  status : String
  duration : ℕ
  artifacts : List String
  deriving DecidableEq

/-- The run's file-system state: the shared `screenshots/` directory listing
and the report file, if written yet. -/
structure QCState where
  screenshotsDir : List String
  reportFile : Option QCReportFile
  deriving DecidableEq

/-- Empty working directory before the first test case. -/
def qcInit : QCState := { screenshotsDir := [], reportFile := none }

/-- The character-level meaning of the ECMA string test
`f.endsWith('.png')` (for these ASCII file names the two coincide). -/
def pngSuffix : List Char := ".png".data

/-- One test case runs (its screenshots land in the shared directory), then
`test.afterEach` writes `report.json` for that single case, with `artifacts`
the whole directory listing filtered by `f.endsWith('.png')`. -/
def runCase (st : QCState) (tc : TestCaseRun) : QCState :=
  { screenshotsDir := st.screenshotsDir ++ tc.newScreenshots,
    reportFile := some
      { timestamp := tc.timestamp, test := tc.title, status := tc.status,
        duration := tc.duration,
        artifacts :=
          (st.screenshotsDir ++ tc.newScreenshots).filter
            (fun f => pngSuffix.isSuffixOf f.data) } }

/-- Number of QCResult entries in the report file. -/
def reportEntryCount (st : QCState) : ℕ :=
  match st.reportFile with
  | none => 0
  | some _ => 1

/-- First concrete test case for the report counterexample. -/
def qcCaseA : TestCaseRun :=
  { timestamp := "2025-01-01T00:00:00Z", title := "logo is visible in KAI section",
    status := "passed", duration := 120, newScreenshots := ["logo-visible.png"] }

/-- Second concrete test case for the report counterexample. -/
def qcCaseB : TestCaseRun :=
  { timestamp := "2025-01-01T00:01:00Z", title := "homepage loads without errors",
    status := "passed", duration := 300, newScreenshots := ["homepage-loaded.png"] }

lemma foldl_runCase_screenshotsDir (st : QCState) (cases : List TestCaseRun) :
    (List.foldl runCase st cases).screenshotsDir =
      st.screenshotsDir ++ (cases.map (fun tc => tc.newScreenshots)).flatten := by
  induction cases generalizing st with
  | nil => simp
  | cons c cs ih => simp [runCase, ih, List.append_assoc]

/-- Claim C6 counterexample: running two test cases (N = 2) leaves a report
holding exactly one QCResult entry — the second case's — because each
`afterEach` overwrites `report.json`; the first case's entry is lost. -/
theorem report_overwritten_cx :
    reportEntryCount (List.foldl runCase qcInit [qcCaseA, qcCaseB]) = 1 ∧
      (List.foldl runCase qcInit [qcCaseA, qcCaseB]).reportFile =
        some { timestamp := "2025-01-01T00:01:00Z",
               test := "homepage loads without errors",
               status := "passed", duration := 300,
               artifacts := ["logo-visible.png", "homepage-loaded.png"] } := by
  constructor
  · rfl
  · decide

/-- Claim C6 (amended): after any nonempty run of test cases the aggregate
report holds exactly one QCResult entry — the last case's timestamp, name,
status and duration — because each per-case write replaces the file; its
`artifacts` field lists every `.png` accumulated in the shared screenshots
directory across all cases, not only the cases that captured them. -/
theorem report_holds_last_case_only (st : QCState) (cases : List TestCaseRun)
    (h : cases ≠ []) :
    (List.foldl runCase st cases).reportFile =
      some { timestamp := (cases.getLast h).timestamp,
             test := (cases.getLast h).title,
             status := (cases.getLast h).status,
             duration := (cases.getLast h).duration,
             artifacts :=
               (st.screenshotsDir ++
                 (cases.map (fun tc => tc.newScreenshots)).flatten).filter
                 (fun f => pngSuffix.isSuffixOf f.data) } ∧
    reportEntryCount (List.foldl runCase st cases) = 1 := by
  rcases List.eq_nil_or_concat cases with rfl | ⟨L, c, rfl⟩
  · exact absurd rfl h
  · simp only [List.concat_eq_append] at h ⊢
    rw [List.foldl_append]
    constructor
    · simp [runCase, foldl_runCase_screenshotsDir, List.getLast_append,
        List.map_append, List.flatten_append, List.append_assoc]
    · rfl

/-- Witness for `report_holds_last_case_only` on the two concrete cases. -/
theorem report_holds_last_case_only_w :
    ([qcCaseA, qcCaseB] ≠ ([] : List TestCaseRun)) ∧
      reportEntryCount (List.foldl runCase qcInit [qcCaseA, qcCaseB]) = 1 :=
  ⟨by simp,
    (report_holds_last_case_only qcInit [qcCaseA, qcCaseB] (by simp)).2⟩

/-!
## QC harness: responsive matrix (`visual-qc.spec.js`, part_000 revision,
lines 8-14 and 147-168)

Each breakpoint test sets the viewport, loads the root page, asserts the logo
is visible, and asserts no horizontal overflow: the page evaluates
`doc.scrollWidth > doc.clientWidth + 1` (the `+ 1` avoids subpixel false
positives) and the test expects the result falsy.
-/

/-- A named viewport of the responsive describe block. -/
structure Viewport where
  name : String
  width : ℕ
  height : ℕ
  deriving DecidableEq

/-- The six breakpoints (part_000 lines 148-155). -/
def breakpoints : List Viewport :=
  [⟨"mobile-small", 320, 568⟩, ⟨"mobile-medium", 375, 667⟩,
   ⟨"mobile-large", 414, 896⟩, ⟨"tablet", 768, 1024⟩,
   ⟨"desktop", 1280, 720⟩, ⟨"desktop-large", 1920, 1080⟩]

/-- What the loaded root page reports to the test: the document element's
scroll and client widths, and whether the logo locator is visible. -/
structure PageMetrics where
  scrollWidth : ℕ
  clientWidth : ℕ
  logoVisible : Bool
  deriving DecidableEq

/-- `assertNoHorizontalScroll`'s page evaluation (part_000 lines 8-14):
`doc.scrollWidth > doc.clientWidth + 1`. -/
def hasHorizontalOverflow (p : PageMetrics) : Bool :=
  decide (p.scrollWidth > p.clientWidth + 1)

/-- One responsive breakpoint test body (part_000 lines 157-167): the logo is
visible and `hasHorizontalOverflow` is falsy. -/
def responsiveTest (p : PageMetrics) : Bool :=
  p.logoVisible && !hasHorizontalOverflow p

/-- Claim C9: the responsive suite runs over exactly the viewport widths
`{320, 375, 414, 768, 1280, 1920}`, and at each of them the test passes on
the loaded root page exactly when the logo is visible and the document's
scroll width exceeds its client width by at most one pixel. -/
theorem responsive_no_overflow :
    breakpoints.map Viewport.width = [320, 375, 414, 768, 1280, 1920] ∧
    ∀ bp ∈ breakpoints, ∀ p : PageMetrics,
      (responsiveTest p = true → p.scrollWidth ≤ p.clientWidth + 1) ∧
      (p.scrollWidth ≤ p.clientWidth + 1 → p.logoVisible = true →
        responsiveTest p = true) := by
  refine ⟨rfl, ?_⟩
  intro bp hbp p
  constructor
  · intro h
    simp [responsiveTest, hasHorizontalOverflow] at h
    omega
  · intro h hl
    simp [responsiveTest, hasHorizontalOverflow, hl]
    omega

/-- Witness for `responsive_no_overflow` at the smallest breakpoint, on a page
whose content is one subpixel wider than the viewport. -/
theorem responsive_no_overflow_w :
    responsiveTest ⟨801, 800, true⟩ = true ∧ (801 : ℕ) ≤ 800 + 1 :=
  ⟨by decide,
    (responsive_no_overflow.2 ⟨"mobile-small", 320, 568⟩ (by decide)
      ⟨801, 800, true⟩).1 (by decide)⟩

end LandingPage
